import Mathlib

/-!
Verification of the ppp-go purchasing-power-parity pricing library.

Shallow embedding conventions:
* Go `float64` arithmetic is modelled over `ℚ` (exact arithmetic; none of the
  verified claims depends on IEEE rounding).
* The two remote providers (World Bank indicator API, currency-rate API) are
  modelled as function parameters returning `Option` values: `none` models a
  failed call (non-nil Go error), `some` a successful response.
* Go functions returning `(T, error)` are modelled as `Option T`:
  `none` models a non-nil error.
* Wall-clock time is modelled as `ℕ`; the go-cache backing store keeps an
  absolute expiration instant per entry and treats an entry as live at time
  `now` iff `now ≤ expiration` (go-cache expires when `now > Expiration`).
* `time.Time` fields that the verified operations never consult
  (`LastUpdated`) are omitted from the record models, as are JSON-only
  metadata fields of provider records.
-/

/-- `PPPData` from models.go (the `LastUpdated : time.Time` field is omitted:
no modelled operation reads it). -/
structure PPPData where
  CountryCode : String
  CountryName : String
  Year : Int
  Factor : ℚ
  Source : String
deriving DecidableEq

/-- `ExchangeRate` from models.go (the `LastUpdated` field omitted, unused by
the modelled operations). -/
structure ExchangeRate where
  From : String
  To : String
  Rate : ℚ
deriving DecidableEq

/-- `PriceRecommendation` from models.go. -/
structure PriceRecommendation where
  OriginalPrice : ℚ
  OriginalCurrency : String
  RecommendedPrice : ℚ
  TargetCurrency : String
  PPPFactor : ℚ
  ExchangeRate : ℚ
  DiscountPercentage : ℚ
deriving DecidableEq

/-- `CountryInfo` from models.go (`id` and `value` of the country object in a
World Bank data point). -/
structure CountryInfo where
  ID : String
  Value : String
deriving DecidableEq

/-- `IndicatorData` from models.go: one observation of an indicator series.
`Value` is the nullable numeric value (`*float64` in Go). The JSON metadata
fields (`Indicator`, `CountryISO3Code`, `Unit`, `ObsStatus`, `Decimal`) are
omitted: `GetPPP` never reads them. -/
structure IndicatorData where
  Country : CountryInfo
  Date : String
  Value : Option ℚ
deriving DecidableEq

/-- `PPPTrendAnalysis` from models.go. -/
structure PPPTrendAnalysis where
  Country : String
  StartYear : Int
  EndYear : Int
  Average : ℚ
  Trend : String
  Volatility : ℚ
  DataPoints : Nat
deriving DecidableEq

/-- `CountryComparison` from models.go. -/
structure CountryComparison where
  Country : String
  CountryName : String
  Factor : ℚ
  PercentOfUS : ℚ
  Rank : Nat
deriving DecidableEq

/-- `Country` from models.go, trimmed to the fields the modelled operations
touch (region/income metadata omitted). -/
structure Country where
  ID : String
  ISO2Code : String
  Name : String
  CapitalCity : String
deriving DecidableEq

/-- `Indicator` from models.go, trimmed to identifying fields. -/
structure Indicator where
  ID : String
  Name : String
deriving DecidableEq

/-! ### Error taxonomy and validators (currency.go, errors section) -/

def ErrCodeNoData : String := "NO_DATA"
def ErrCodeAPIError : String := "API_ERROR"
def ErrCodeInvalidInput : String := "INVALID_INPUT"

/-- `PPPError` from the errors section of currency.go, trimmed to the
machine-readable code and message (the wrapped error and context map carry no
claim-relevant information). -/
structure PPPError where
  Code : String
  Message : String
deriving DecidableEq

/-- `ValidateCountryCode`: exactly 2 characters, all uppercase ASCII letters.
Returns `some err` on failure, `none` when valid (Go returns `error`). -/
def ValidateCountryCode (code : String) : Option PPPError :=
  if code.length ≠ 2 then
    some ⟨ErrCodeInvalidInput, "country code must be 2 characters"⟩
  else if code.data.any (fun char => char < 'A' ∨ 'Z' < char) then
    some ⟨ErrCodeInvalidInput, "country code must be uppercase letters"⟩
  else none

/-- `ValidateCurrencyCode`: exactly 3 characters, all uppercase ASCII letters. -/
def ValidateCurrencyCode (code : String) : Option PPPError :=
  if code.length ≠ 3 then
    some ⟨ErrCodeInvalidInput, "currency code must be 3 characters"⟩
  else if code.data.any (fun char => char < 'A' ∨ 'Z' < char) then
    some ⟨ErrCodeInvalidInput, "currency code must be uppercase letters"⟩
  else none

/-- `ValidateAmount`: rejects negative, zero, and very large (> 1e15) amounts,
in that order, with distinct messages. -/
def ValidateAmount (amount : ℚ) : Option PPPError :=
  if amount < 0 then some ⟨ErrCodeInvalidInput, "amount cannot be negative"⟩
  else if amount = 0 then some ⟨ErrCodeInvalidInput, "amount cannot be zero"⟩
  else if (1000000000000000 : ℚ) < amount then
    some ⟨ErrCodeInvalidInput, "amount is too large"⟩
  else none

/-! ### Country → currency lookup (currency.go, `getCurrencyForCountry`) -/

/-- The static `currencyMap` literal inside `Client.getCurrencyForCountry`. -/
def currencyMap : List (String × String) :=
  [("US", "USD"), ("TR", "TRY"), ("DE", "EUR"), ("FR", "EUR"), ("IT", "EUR"),
   ("ES", "EUR"), ("GB", "GBP"), ("JP", "JPY"), ("CN", "CNY"), ("IN", "INR"),
   ("BR", "BRL"), ("RU", "RUB"), ("CA", "CAD"), ("AU", "AUD"), ("MX", "MXN"),
   ("KR", "KRW"), ("ID", "IDR"), ("SA", "SAR"), ("AR", "ARS"), ("ZA", "ZAR"),
   ("NG", "NGN"), ("EG", "EGP"), ("PK", "PKR"), ("BD", "BDT"), ("VN", "VND"),
   ("TH", "THB"), ("MY", "MYR"), ("SG", "SGD"), ("PH", "PHP"), ("NZ", "NZD"),
   ("CH", "CHF"), ("SE", "SEK"), ("NO", "NOK"), ("DK", "DKK"), ("PL", "PLN"),
   ("CZ", "CZK"), ("HU", "HUF"), ("RO", "RON"), ("UA", "UAH"), ("IL", "ILS"),
   ("AE", "AED"), ("CL", "CLP"), ("CO", "COP"), ("PE", "PEN")]

/-- `Client.getCurrencyForCountry`: static map lookup, defaulting to `"USD"`
when the country is absent. -/
def getCurrencyForCountry (countryCode : String) : String :=
  match currencyMap.find? (fun kv => kv.1 = countryCode) with
  | some kv => kv.2
  | none => "USD"

/-! ### `Client.Recommend` (currency.go) -/

/-- `Client.Recommend`: fetch PPP for the target country, resolve its
currency, fetch the `fromCurrency → toCurrency` rate, and combine.
The two fetches are the cache-aside `Client.GetPPP` / `Client.GetExchangeRate`
reads, abstracted here as the functions `getPPPf` / `getRatef` (what they
return for the given arguments is all `Recommend` observes). -/
def Recommend (getPPPf : String → Option PPPData)
    (getRatef : String → String → Option ExchangeRate)
    (price : ℚ) (fromCurrency toCountry : String) : Option PriceRecommendation :=
  match getPPPf toCountry with
  | none => none
  | some ppp =>
    let toCurrency := getCurrencyForCountry toCountry
    match getRatef fromCurrency toCurrency with
    | none => none
    | some rate =>
      let recommendedPrice := price * ppp.Factor
      let normalPrice := price * rate.Rate
      let discountPercentage := ((normalPrice - recommendedPrice) / normalPrice) * 100
      some { OriginalPrice := price
             OriginalCurrency := fromCurrency
             RecommendedPrice := recommendedPrice
             TargetCurrency := toCurrency
             PPPFactor := ppp.Factor
             ExchangeRate := rate.Rate
             DiscountPercentage := discountPercentage }

/-- C1: when the PPP fetch yields factor `p` and the rate fetch yields rate
`r`, `Recommend` succeeds and returns `RecommendedPrice = a * p`,
`PPPFactor = p`, `ExchangeRate = r`, and
`DiscountPercentage = ((a*r - a*p) / (a*r)) * 100`; for a positive amount and
positive rate with `p > r`, the discount is negative yet still delivered as a
normal (`some`) result, not an error. -/
theorem recommend_formula_c1 (getPPPf : String → Option PPPData)
    (getRatef : String → String → Option ExchangeRate)
    (price : ℚ) (fromCurrency toCountry : String)
    (ppp : PPPData) (rate : ExchangeRate)
    (hp : getPPPf toCountry = some ppp)
    (hr : getRatef fromCurrency (getCurrencyForCountry toCountry) = some rate) :
    Recommend getPPPf getRatef price fromCurrency toCountry = some
      { OriginalPrice := price
        OriginalCurrency := fromCurrency
        RecommendedPrice := price * ppp.Factor
        TargetCurrency := getCurrencyForCountry toCountry
        PPPFactor := ppp.Factor
        ExchangeRate := rate.Rate
        DiscountPercentage :=
          ((price * rate.Rate - price * ppp.Factor) / (price * rate.Rate)) * 100 } ∧
    (rate.Rate < ppp.Factor → 0 < price → 0 < rate.Rate →
      ∃ rec, Recommend getPPPf getRatef price fromCurrency toCountry = some rec ∧
        rec.DiscountPercentage < 0) := by
  have heq : Recommend getPPPf getRatef price fromCurrency toCountry = some
      { OriginalPrice := price
        OriginalCurrency := fromCurrency
        RecommendedPrice := price * ppp.Factor
        TargetCurrency := getCurrencyForCountry toCountry
        PPPFactor := ppp.Factor
        ExchangeRate := rate.Rate
        DiscountPercentage :=
          ((price * rate.Rate - price * ppp.Factor) / (price * rate.Rate)) * 100 } := by
    simp [Recommend, hp, hr]
  constructor
  · exact heq
  · intro hlt hprice hrate
    refine ⟨_, heq, ?_⟩
    have hnum : price * rate.Rate - price * ppp.Factor < 0 := by
      have := mul_lt_mul_of_pos_left hlt hprice
      linarith
    have hden : 0 < price * rate.Rate := mul_pos hprice hrate
    have hdiv : (price * rate.Rate - price * ppp.Factor) / (price * rate.Rate) < 0 :=
      div_neg_of_neg_of_pos hnum hden
    simpa using mul_neg_of_neg_of_pos hdiv (by norm_num : (0 : ℚ) < 100)

/-- Witness for C1: concrete fetchers with `a = 100`, `p = 3`, `r = 2`
(`p > r`), giving the expected record and a negative discount. -/
theorem recommend_formula_c1_witness :
    Recommend (fun _ => some ⟨"TR", "Turkiye", 2023, 3, "World Bank"⟩)
        (fun _ _ => some ⟨"USD", "TRY", 2⟩) 100 "USD" "TR" = some
      { OriginalPrice := 100
        OriginalCurrency := "USD"
        RecommendedPrice := 100 * 3
        TargetCurrency := getCurrencyForCountry "TR"
        PPPFactor := 3
        ExchangeRate := 2
        DiscountPercentage := ((100 * 2 - 100 * 3) / (100 * 2)) * 100 } ∧
    ((2 : ℚ) < 3 → (0 : ℚ) < 100 → (0 : ℚ) < 2 →
      ∃ rec, Recommend (fun _ => some ⟨"TR", "Turkiye", 2023, 3, "World Bank"⟩)
          (fun _ _ => some ⟨"USD", "TRY", 2⟩) 100 "USD" "TR" = some rec ∧
        rec.DiscountPercentage < 0) :=
  recommend_formula_c1 (fun _ => some ⟨"TR", "Turkiye", 2023, 3, "World Bank"⟩)
    (fun _ _ => some ⟨"USD", "TRY", 2⟩) 100 "USD" "TR"
    ⟨"TR", "Turkiye", 2023, 3, "World Bank"⟩ ⟨"USD", "TRY", 2⟩ rfl rfl

/-! ### `WorldBankClient.GetPPP` (worldbank.go): select the most recent
positive observation from the provider's newest-first series -/

/-- Construction of a `PPPData` record from the selected data point, as in the
loop body of `WorldBankClient.GetPPP` (`strconv.Atoi` with its error ignored
yields 0 on a non-numeric year string, modelled by `toInt?.getD 0`). -/
def pppFromDataPoint (dp : IndicatorData) : PPPData :=
  { CountryCode := dp.Country.ID
    CountryName := dp.Country.Value
    Year := dp.Date.toInt?.getD 0
    Factor := dp.Value.getD 0
    Source := "World Bank" }

/-- The loop guard of `WorldBankClient.GetPPP`:
`dp.Value != nil && *dp.Value > 0`. -/
def hasPositiveValue (dp : IndicatorData) : Bool :=
  match dp.Value with
  | some v => decide (0 < v)
  | none => false

/-- `WorldBankClient.GetPPP`, after a successful HTTP fetch and JSON parse of
the newest-first 10-year series `dataPoints`: return the first data point with
a present, strictly positive value; `none` models the
`"no PPP data available"` (NoData) error return when no such point exists.
The country code argument is only interpolated into the error message in Go. -/
def WorldBankGetPPP (_countryCode : String) (dataPoints : List IndicatorData) :
    Option PPPData :=
  (dataPoints.find? hasPositiveValue).map pppFromDataPoint

/-- `hasPositiveValue` decides presence of a strictly positive observation. -/
theorem hasPositiveValue_iff (dp : IndicatorData) :
    hasPositiveValue dp = true ↔ ∃ v, dp.Value = some v ∧ 0 < v := by
  cases h : dp.Value with
  | none => simp [hasPositiveValue, h]
  | some v => simp [hasPositiveValue, h]

/-- A `find?` that begins with rejected elements resolves at the first
accepted element. -/
theorem find?_first {α : Type} (p : α → Bool) (pre : List α) (x : α) (post : List α)
    (hpre : ∀ y ∈ pre, p y = false) (hx : p x = true) :
    (pre ++ x :: post).find? p = some x := by
  induction pre with
  | nil => simp [List.find?_cons, hx]
  | cons a as ih =>
    have ha : p a = false := hpre a (List.mem_cons_self a as)
    simp only [List.cons_append, List.find?_cons, ha]
    exact ih (fun y hy => hpre y (List.mem_cons_of_mem a hy))

/-- C2: over the provider's newest-first series, `GetPPP` skips null and
non-positive observations: (1) if some observation is present and positive,
the call succeeds and the returned factor is strictly positive; (2) the value
returned is built from the first (most recent) such observation; (3) if every
observation in the window is null/absent, the call fails with the NoData
error (`none`). -/
theorem worldBankGetPPP_selection_c2 (countryCode : String)
    (dataPoints : List IndicatorData) :
    ((∃ dp ∈ dataPoints, ∃ v, dp.Value = some v ∧ 0 < v) →
      ∃ r, WorldBankGetPPP countryCode dataPoints = some r ∧ 0 < r.Factor) ∧
    (∀ pre dp post, dataPoints = pre ++ dp :: post →
      (∀ x ∈ pre, ¬ ∃ v, x.Value = some v ∧ 0 < v) →
      (∃ v, dp.Value = some v ∧ 0 < v) →
      WorldBankGetPPP countryCode dataPoints = some (pppFromDataPoint dp)) ∧
    ((∀ dp ∈ dataPoints, dp.Value = none) →
      WorldBankGetPPP countryCode dataPoints = none) := by
  refine ⟨?_, ?_, ?_⟩
  · intro hex
    obtain ⟨dp, hmem, v, hv, hpos⟩ := hex
    have hfind : (dataPoints.find? hasPositiveValue).isSome := by
      rw [List.find?_isSome]
      exact ⟨dp, hmem, (hasPositiveValue_iff dp).mpr ⟨v, hv, hpos⟩⟩
    obtain ⟨dp', hdp'⟩ := Option.isSome_iff_exists.mp hfind
    have hsat : hasPositiveValue dp' = true := List.find?_some hdp'
    obtain ⟨v', hv', hpos'⟩ := (hasPositiveValue_iff dp').mp hsat
    refine ⟨pppFromDataPoint dp', ?_, ?_⟩
    · simp [WorldBankGetPPP, hdp']
    · simp [pppFromDataPoint, hv']
      exact hpos'
  · intro pre dp post hsplit hpre hdp
    subst hsplit
    have hfind : ((pre ++ dp :: post).find? hasPositiveValue) = some dp := by
      refine find?_first hasPositiveValue pre dp post ?_ ?_
      · intro y hy
        by_contra hny
        exact hpre y hy ((hasPositiveValue_iff y).mp (by
          cases h : hasPositiveValue y with
          | true => rfl
          | false => exact absurd h hny))
      · exact (hasPositiveValue_iff dp).mpr hdp
    simp [WorldBankGetPPP, hfind]
  · intro hall
    have hfind : (dataPoints.find? hasPositiveValue) = none := by
      rw [List.find?_eq_none]
      intro dp hmem
      simp [hasPositiveValue, hall dp hmem]
    simp [WorldBankGetPPP, hfind]

/-- Witness for C2: a series starting with a null year and a negative year
before a positive one yields the positive observation; an all-null series
yields NoData. -/
theorem worldBankGetPPP_selection_c2_witness :
    (∃ r, WorldBankGetPPP "TR"
        [⟨⟨"TR", "Turkiye"⟩, "2023", none⟩,
         ⟨⟨"TR", "Turkiye"⟩, "2022", some (-1)⟩,
         ⟨⟨"TR", "Turkiye"⟩, "2021", some 12⟩] = some r ∧ 0 < r.Factor) ∧
    WorldBankGetPPP "TR"
        [⟨⟨"TR", "Turkiye"⟩, "2023", none⟩,
         ⟨⟨"TR", "Turkiye"⟩, "2022", some (-1)⟩,
         ⟨⟨"TR", "Turkiye"⟩, "2021", some 12⟩] =
      some (pppFromDataPoint ⟨⟨"TR", "Turkiye"⟩, "2021", some 12⟩) ∧
    WorldBankGetPPP "XX" [⟨⟨"XX", "Nowhere"⟩, "2023", none⟩] = none := by
  refine ⟨?_, ?_, ?_⟩
  · exact (worldBankGetPPP_selection_c2 "TR" _).1
      ⟨⟨⟨"TR", "Turkiye"⟩, "2021", some 12⟩, by decide, 12, rfl, by norm_num⟩
  · exact (worldBankGetPPP_selection_c2 "TR" _).2.1
      [⟨⟨"TR", "Turkiye"⟩, "2023", none⟩, ⟨⟨"TR", "Turkiye"⟩, "2022", some (-1)⟩]
      ⟨⟨"TR", "Turkiye"⟩, "2021", some 12⟩ [] rfl (by decide) ⟨12, rfl, by norm_num⟩
  · exact (worldBankGetPPP_selection_c2 "XX" _).2.2 (by decide)

/-! ### Cache component (cache file; go-cache backed)

Cache keys are composed strings; they are modelled as `List Char` (the keys
are ASCII, so Go's byte slicing in `ImportFromFile` coincides with character
slicing). The backing go-cache store is a key-value map with an absolute
expiration instant per entry: an entry set at time `t` with TTL `d` expires
strictly after `t + d`, and a read at time `now` sees it iff `now ≤ t + d`. -/

/-- The typed payloads the library stores in its shared cache, one per
namespace (`interface{}` values discriminated by Go type assertions). -/
inductive CachePayload where
  | pppD (d : PPPData)
  | rateD (r : ExchangeRate)
  | countriesD (cs : List Country)
  | indicatorsD (il : List Indicator)
deriving DecidableEq

/-- One live go-cache item: composed key, payload, absolute expiration. -/
structure CacheItem where
  key : List Char
  payload : CachePayload
  expiration : Nat
deriving DecidableEq

/-- The cache contents (`go-cache`'s items map, as an association list whose
first hit wins on lookup; `cacheSet` keeps keys unique). -/
abbrev CacheMap := List CacheItem

/-- go-cache `Get` at time `now`: present and unexpired. -/
def cacheGet (c : CacheMap) (now : Nat) (k : List Char) : Option CachePayload :=
  match List.find? (fun e => e.key = k) c with
  | some e => if now ≤ e.expiration then some e.payload else none
  | none => none

/-- go-cache `Set`: overwrite the key with the given payload and absolute
expiration instant. -/
def cacheSet (c : CacheMap) (k : List Char) (p : CachePayload) (expiration : Nat) :
    CacheMap :=
  ⟨k, p, expiration⟩ :: List.filter (fun e => ¬ e.key = k) c

/-- `CacheKeyPPP`: `"ppp:" + countryCode`. -/
def CacheKeyPPP (countryCode : String) : List Char :=
  "ppp:".data ++ countryCode.data

/-- `CacheKeyExchangeRate`: `"rate:" + from + ":" + to`. -/
def CacheKeyExchangeRate (f t : String) : List Char :=
  "rate:".data ++ (f.data ++ (":".data ++ t.data))

/-- `CacheKeyCountries`: the fixed key `"countries:all"`. -/
def CacheKeyCountries : List Char := "countries:all".data

/-- `CacheKeyIndicators`: `"indicators:search:" + search`. -/
def CacheKeyIndicators (search : String) : List Char :=
  "indicators:search:".data ++ search.data

/-- `Cache.GetPPP`: namespaced read plus the `*PPPData` type assertion. -/
def CacheGetPPP (c : CacheMap) (now : Nat) (countryCode : String) : Option PPPData :=
  match cacheGet c now (CacheKeyPPP countryCode) with
  | some (CachePayload.pppD d) => some d
  | _ => none

/-- `Cache.SetPPP` with TTL `d`, performed at time `now`. -/
def CacheSetPPP (c : CacheMap) (now : Nat) (countryCode : String) (d : PPPData)
    (ttl : Nat) : CacheMap :=
  cacheSet c (CacheKeyPPP countryCode) (CachePayload.pppD d) (now + ttl)

/-! ### `Client.GetPPP` (currency.go): cache-aside orchestration -/

/-- `Client.GetPPP` instrumented with the number of underlying provider calls
it issues (0 or 1). `provider` models `WorldBankClient.GetPPP` for the fixed
country argument; `cacheEnabled`/`cacheDuration` are the client's
configuration; the call happens at time `now`. Returns
(result, cache afterwards, provider calls made). -/
def ClientGetPPP (provider : String → Option PPPData) (cacheEnabled : Bool)
    (cacheDuration : Nat) (cache : CacheMap) (now : Nat) (countryCode : String) :
    Option PPPData × CacheMap × Nat :=
  match (if cacheEnabled then CacheGetPPP cache now countryCode else none) with
  | some ppp => (some ppp, cache, 0)
  | none =>
    match provider countryCode with
    | none => (none, cache, 1)
    | some ppp =>
      if cacheEnabled then
        (some ppp, CacheSetPPP cache now countryCode ppp cacheDuration, 1)
      else (some ppp, cache, 1)

/-- C3: on a cache-enabled client, a `GetPPP` miss at time `t1` fetches from
the provider (one call), stores the observation, and returns it; a second
call for the same country at any time `t2 ≤ t1 + TTL` returns the identical
value from the cache with zero provider calls and an unchanged cache. -/
theorem clientGetPPP_idempotent_c3 (provider : String → Option PPPData)
    (cacheDuration : Nat) (cache : CacheMap) (t1 t2 : Nat) (countryCode : String)
    (ppp : PPPData)
    (hprov : provider countryCode = some ppp)
    (hmiss : CacheGetPPP cache t1 countryCode = none)
    (hwindow : t2 ≤ t1 + cacheDuration) :
    ClientGetPPP provider true cacheDuration cache t1 countryCode =
      (some ppp, CacheSetPPP cache t1 countryCode ppp cacheDuration, 1) ∧
    ClientGetPPP provider true cacheDuration
        (CacheSetPPP cache t1 countryCode ppp cacheDuration) t2 countryCode =
      (some ppp, CacheSetPPP cache t1 countryCode ppp cacheDuration, 0) := by
  constructor
  · simp [ClientGetPPP, hmiss, hprov]
  · have hhit : CacheGetPPP (CacheSetPPP cache t1 countryCode ppp cacheDuration)
        t2 countryCode = some ppp := by
      simp [CacheGetPPP, CacheSetPPP, cacheGet, cacheSet, List.find?_cons, hwindow]
    simp [ClientGetPPP, hhit]

/-- Witness for C3: a concrete provider, empty cache, TTL 24, calls at times
0 and 24 (the TTL boundary). -/
theorem clientGetPPP_idempotent_c3_witness :
    ClientGetPPP (fun _ => some ⟨"TR", "Turkiye", 2023, 12, "World Bank"⟩)
        true 24 [] 0 "TR" =
      (some ⟨"TR", "Turkiye", 2023, 12, "World Bank"⟩,
       CacheSetPPP [] 0 "TR" ⟨"TR", "Turkiye", 2023, 12, "World Bank"⟩ 24, 1) ∧
    ClientGetPPP (fun _ => some ⟨"TR", "Turkiye", 2023, 12, "World Bank"⟩)
        true 24 (CacheSetPPP [] 0 "TR" ⟨"TR", "Turkiye", 2023, 12, "World Bank"⟩ 24)
        24 "TR" =
      (some ⟨"TR", "Turkiye", 2023, 12, "World Bank"⟩,
       CacheSetPPP [] 0 "TR" ⟨"TR", "Turkiye", 2023, 12, "World Bank"⟩ 24, 0) :=
  clientGetPPP_idempotent_c3 (fun _ => some ⟨"TR", "Turkiye", 2023, 12, "World Bank"⟩)
    24 [] 0 24 "TR" ⟨"TR", "Turkiye", 2023, 12, "World Bank"⟩ rfl rfl (by norm_num)

/-! ### `Client.ComparePPP` (currency.go) -/

/-- First phase of `Client.ComparePPP`: the `for i, code := range countryCodes`
loop. Countries whose `GetPPP` fails are skipped; a successful country yields
an entry with `PercentOfUS = (1/factor)*100` and the provisional rank `i+1`
(`i` the index in the input list; overwritten after sorting). -/
def buildComparisons (fetch : String → Option PPPData) :
    Nat → List String → List CountryComparison
  | _, [] => []
  | i, code :: rest =>
    match fetch code with
    | none => buildComparisons fetch (i + 1) rest
    | some ppp =>
      { Country := code
        CountryName := ppp.CountryName
        Factor := ppp.Factor
        PercentOfUS := (1 / ppp.Factor) * 100
        Rank := i + 1 } :: buildComparisons fetch (i + 1) rest

/-- One outer iteration of the swap sort in `Client.ComparePPP`, at position
`i` holding `x`: the inner loop `for j := i+1 ...; if a[i].Factor > a[j].Factor
swap` scans the tail, exchanging the current occupant of position `i` into
position `j` whenever it beats the element there. Returns the final occupant
of position `i` together with positions `i+1 ...` as rearranged. -/
def passMin (x : CountryComparison) :
    List CountryComparison → CountryComparison × List CountryComparison
  | [] => (x, [])
  | y :: ys =>
    if x.Factor > y.Factor then
      let p := passMin y ys
      (p.1, x :: p.2)
    else
      let p := passMin x ys
      (p.1, y :: p.2)

theorem passMin_length (x : CountryComparison) (l : List CountryComparison) :
    (passMin x l).2.length = l.length := by
  induction l generalizing x with
  | nil => simp [passMin]
  | cons y ys ih =>
    by_cases h : x.Factor > y.Factor <;> simp [passMin, h, ih]

/-- The full double loop `for i ... for j := i+1 ...` of `Client.ComparePPP`,
expressed position by position: fix position `i` via `passMin`, then sort the
rearranged tail. `fuel` counts the remaining outer iterations; it equals the
list length at every call (`passMin` preserves length), so the `0, x :: xs`
branch is unreachable. -/
def sortLoopFuel : Nat → List CountryComparison → List CountryComparison
  | _, [] => []
  | 0, x :: xs => x :: xs
  | fuel + 1, x :: xs => (passMin x xs).1 :: sortLoopFuel fuel (passMin x xs).2

/-- The swap sort of `Client.ComparePPP` (outer loop runs `length` times). -/
def sortLoop (l : List CountryComparison) : List CountryComparison :=
  sortLoopFuel l.length l

/-- Final phase of `Client.ComparePPP`: `comparisons[i].Rank = i + 1`,
overwriting the provisional ranks. `n` is the number of entries already
ranked (0 at the top-level call). -/
def assignRanks : Nat → List CountryComparison → List CountryComparison
  | _, [] => []
  | n, e :: es => { e with Rank := n + 1 } :: assignRanks (n + 1) es

/-- `Client.ComparePPP`. The Go function returns
`([]CountryComparison, error)` and its single return statement passes a `nil`
error; the second component models that error value. -/
def ComparePPP (fetch : String → Option PPPData) (countryCodes : List String) :
    List CountryComparison × Option String :=
  (assignRanks 0 (sortLoop (buildComparisons fetch 0 countryCodes)), none)



theorem passMin_fst_le (x : CountryComparison) (l : List CountryComparison) :
    (passMin x l).1.Factor ≤ x.Factor := by
  induction l generalizing x with
  | nil => simp [passMin]
  | cons y ys ih =>
    by_cases h : x.Factor > y.Factor
    · simp only [passMin, if_pos h]
      exact le_trans (ih y) (le_of_lt h)
    · simp only [passMin, if_neg h]
      exact ih x

/-- After an outer pass, the element fixed at position `i` is a minimum (by
factor) of everything pushed into the tail. -/
theorem passMin_fst_min (x : CountryComparison) (l : List CountryComparison) :
    ∀ z ∈ (passMin x l).2, (passMin x l).1.Factor ≤ z.Factor := by
  induction l generalizing x with
  | nil => simp [passMin]
  | cons y ys ih =>
    by_cases h : x.Factor > y.Factor
    · simp only [passMin, if_pos h]
      intro z hz
      rcases List.mem_cons.mp hz with rfl | hz'
      · exact le_trans (passMin_fst_le y ys) (le_of_lt h)
      · exact ih y z hz'
    · simp only [passMin, if_neg h]
      intro z hz
      rcases List.mem_cons.mp hz with rfl | hz'
      · exact le_trans (passMin_fst_le x ys) (not_lt.mp h)
      · exact ih x z hz'

/-- An outer pass only rearranges elements. -/
theorem passMin_perm (x : CountryComparison) (l : List CountryComparison) :
    List.Perm ((passMin x l).1 :: (passMin x l).2) (x :: l) := by
  induction l generalizing x with
  | nil => simp [passMin]
  | cons y ys ih =>
    by_cases h : x.Factor > y.Factor
    · simp only [passMin, if_pos h]
      have h1 : List.Perm ((passMin y ys).1 :: x :: (passMin y ys).2)
          (x :: (passMin y ys).1 :: (passMin y ys).2) := List.Perm.swap x _ _
      exact h1.trans ((ih y).cons x)
    · simp only [passMin, if_neg h]
      have h1 : List.Perm ((passMin x ys).1 :: y :: (passMin x ys).2)
          (y :: (passMin x ys).1 :: (passMin x ys).2) := List.Perm.swap y _ _
      have h2 := (ih x).cons y
      have h3 : List.Perm (y :: x :: ys) (x :: y :: ys) := List.Perm.swap x y ys
      exact (h1.trans h2).trans h3

/-- The swap sort permutes its input. -/
theorem sortLoopFuel_perm : ∀ (fuel : Nat) (l : List CountryComparison),
    l.length ≤ fuel → List.Perm (sortLoopFuel fuel l) l
  | _, [], _ => by simp [sortLoopFuel]
  | 0, x :: xs, h => by simp at h
  | fuel + 1, x :: xs, h => by
    simp only [sortLoopFuel]
    have hlen : (passMin x xs).2.length ≤ fuel := by
      rw [passMin_length]
      simp only [List.length_cons] at h
      omega
    have ih := sortLoopFuel_perm fuel (passMin x xs).2 hlen
    exact (ih.cons _).trans (passMin_perm x xs)

theorem sortLoop_perm (l : List CountryComparison) : List.Perm (sortLoop l) l :=
  sortLoopFuel_perm l.length l le_rfl

/-- The swap sort produces a list ascending by factor. -/
theorem sortLoopFuel_pairwise : ∀ (fuel : Nat) (l : List CountryComparison),
    l.length ≤ fuel →
    (sortLoopFuel fuel l).Pairwise (fun a b => a.Factor ≤ b.Factor)
  | _, [], _ => by simp [sortLoopFuel]
  | 0, x :: xs, h => by simp at h
  | fuel + 1, x :: xs, h => by
    have hlen : (passMin x xs).2.length ≤ fuel := by
      rw [passMin_length]
      simp only [List.length_cons] at h
      omega
    simp only [sortLoopFuel, List.pairwise_cons]
    refine ⟨?_, sortLoopFuel_pairwise fuel _ hlen⟩
    intro z hz
    exact passMin_fst_min x xs z ((sortLoopFuel_perm fuel _ hlen).mem_iff.mp hz)

theorem sortLoop_pairwise (l : List CountryComparison) :
    (sortLoop l).Pairwise (fun a b => a.Factor ≤ b.Factor) :=
  sortLoopFuel_pairwise l.length l le_rfl

/-- Forgetting the (placeholder) rank of an entry. -/
def eraseRank (e : CountryComparison) : CountryComparison := { e with Rank := 0 }

theorem assignRanks_map_eraseRank (n : Nat) (l : List CountryComparison) :
    (assignRanks n l).map eraseRank = l.map eraseRank := by
  induction l generalizing n with
  | nil => rfl
  | cons e es ih => simp [assignRanks, eraseRank, ih]

theorem assignRanks_get (n : Nat) (l : List CountryComparison) (i : Nat)
    (h : i < (assignRanks n l).length) :
    ((assignRanks n l).get ⟨i, h⟩).Rank = n + i + 1 := by
  induction l generalizing n i with
  | nil => simp [assignRanks] at h
  | cons e es ih =>
    cases i with
    | zero => simp [assignRanks]
    | succ j =>
      simp only [assignRanks, List.get_cons_succ]
      rw [ih]
      omega

/-- Rank assignment only rewrites the `Rank` field. -/
theorem assignRanks_mem (n : Nat) (l : List CountryComparison) :
    ∀ e ∈ assignRanks n l, ∃ e0 ∈ l,
      e.Factor = e0.Factor ∧ e.PercentOfUS = e0.PercentOfUS := by
  induction l generalizing n with
  | nil => simp [assignRanks]
  | cons a as ih =>
    intro e he
    rcases List.mem_cons.mp he with rfl | he'
    · exact ⟨a, List.mem_cons_self a as, rfl, rfl⟩
    · obtain ⟨e0, he0, hf, hp⟩ := ih (n + 1) e he'
      exact ⟨e0, List.mem_cons_of_mem a he0, hf, hp⟩

theorem assignRanks_pairwise (n : Nat) (l : List CountryComparison)
    (h : l.Pairwise (fun a b => a.Factor ≤ b.Factor)) :
    (assignRanks n l).Pairwise (fun a b => a.Factor ≤ b.Factor) := by
  induction l generalizing n with
  | nil => simp [assignRanks]
  | cons a as ih =>
    rw [List.pairwise_cons] at h
    simp only [assignRanks, List.pairwise_cons]
    refine ⟨?_, ih (n + 1) h.2⟩
    intro z hz
    obtain ⟨e0, he0, hf, _⟩ := assignRanks_mem (n + 1) as z hz
    show ({ a with Rank := n + 1 } : CountryComparison).Factor ≤ z.Factor
    rw [hf]
    exact h.1 e0 he0

/-- The collection loop keeps exactly the successfully fetched countries, in
input order, with `PercentOfUS = (1/factor)*100` (ranks ignored). -/
theorem buildComparisons_eraseRank (fetch : String → Option PPPData)
    (i : Nat) (codes : List String) :
    (buildComparisons fetch i codes).map eraseRank =
      codes.filterMap (fun c => (fetch c).map fun p =>
        { Country := c, CountryName := p.CountryName, Factor := p.Factor,
          PercentOfUS := (1 / p.Factor) * 100, Rank := 0 }) := by
  induction codes generalizing i with
  | nil => rfl
  | cons c cs ih =>
    cases hc : fetch c with
    | none => simp [buildComparisons, hc, List.filterMap_cons, ih]
    | some p => simp [buildComparisons, hc, List.filterMap_cons, ih, eraseRank]

theorem buildComparisons_percent (fetch : String → Option PPPData)
    (i : Nat) (codes : List String) :
    ∀ e ∈ buildComparisons fetch i codes,
      e.PercentOfUS = (1 / e.Factor) * 100 := by
  induction codes generalizing i with
  | nil => simp [buildComparisons]
  | cons c cs ih =>
    intro e he
    cases hc : fetch c with
    | none =>
      rw [buildComparisons, hc] at he
      exact ih (i + 1) e he
    | some p =>
      rw [buildComparisons, hc] at he
      rcases List.mem_cons.mp he with rfl | he'
      · rfl
      · exact ih (i + 1) e he'

/-- C4 (amended): `ComparePPP` returns exactly the entries for countries whose
indicator fetch succeeded (failed countries silently dropped), sorted
ascending by PPP factor — but by a swap-based exchange sort that need not
preserve the relative order of equal-factor entries; each entry's
`PercentOfUS` is `(1/factor)*100`, and each entry's `Rank` is its 1-based
position after sorting, overwriting the earlier placeholder rank. -/
theorem comparePPP_sorted_c4 (fetch : String → Option PPPData)
    (codes : List String) :
    List.Perm ((ComparePPP fetch codes).1.map eraseRank)
      (codes.filterMap (fun c => (fetch c).map fun p =>
        { Country := c, CountryName := p.CountryName, Factor := p.Factor,
          PercentOfUS := (1 / p.Factor) * 100, Rank := 0 })) ∧
    (ComparePPP fetch codes).1.Pairwise (fun a b => a.Factor ≤ b.Factor) ∧
    (∀ i (h : i < (ComparePPP fetch codes).1.length),
      ((ComparePPP fetch codes).1.get ⟨i, h⟩).Rank = i + 1) ∧
    (∀ e ∈ (ComparePPP fetch codes).1, e.PercentOfUS = (1 / e.Factor) * 100) := by
  refine ⟨?_, ?_, ?_, ?_⟩
  · show List.Perm ((assignRanks 0 (sortLoop (buildComparisons fetch 0 codes))).map
      eraseRank) _
    rw [assignRanks_map_eraseRank, ← buildComparisons_eraseRank fetch 0 codes]
    exact (sortLoop_perm (buildComparisons fetch 0 codes)).map eraseRank
  · exact assignRanks_pairwise 0 _ (sortLoop_pairwise _)
  · intro i h
    simpa using assignRanks_get 0 _ i h
  · intro e he
    obtain ⟨e0, he0, hf, hp⟩ := assignRanks_mem 0 _ e he
    have he0' : e0 ∈ buildComparisons fetch 0 codes :=
      (sortLoop_perm _).mem_iff.mp he0
    rw [hp, hf]
    exact buildComparisons_percent fetch 0 codes e0 he0'

/-- A fetch table with two equal-factor countries (`AA` before `AB` in any
input we pass) and one cheaper country, used to exercise `ComparePPP`. -/
def comparePPPDemoFetch : String → Option PPPData := fun c =>
  if c = "AA" then some ⟨"AA", "NameA", 2020, 2, "World Bank"⟩
  else if c = "AB" then some ⟨"AB", "NameB", 2020, 2, "World Bank"⟩
  else if c = "US" then some ⟨"US", "United States", 2020, 1, "World Bank"⟩
  else none

/-- Counterexample to C4 as stated: on input `["AA", "AB", "US"]`, where `AA`
and `AB` carry the same factor 2 and `AA` precedes `AB`, the sort of
`ComparePPP` emits `AB` before `AA` — a stable sort (equal-factor entries
keeping their pre-sort order) would emit `["US", "AA", "AB"]`. The swap
`a[0] ↔ a[2]` of the exchange sort jumps the first equal element over the
second. -/
theorem comparePPP_sorted_c4_counterexample :
    (ComparePPP comparePPPDemoFetch ["AA", "AB", "US"]).1.map
        (fun e => e.Country) = ["US", "AB", "AA"] ∧
    (ComparePPP comparePPPDemoFetch ["AA", "AB", "US"]).1.map
        (fun e => e.Country) ≠ ["US", "AA", "AB"] := by
  constructor
  · decide
  · decide

/-- Witness for C4: the rank and percent clauses of the amended theorem,
applied at the demo input with their hypotheses discharged concretely. -/
theorem comparePPP_sorted_c4_witness :
    ((ComparePPP comparePPPDemoFetch ["AA", "AB", "US"]).1.get
        ⟨0, by decide⟩).Rank = 0 + 1 ∧
    ((⟨"US", "United States", 1, 100, 1⟩ : CountryComparison).PercentOfUS =
      (1 / (⟨"US", "United States", 1, 100, 1⟩ : CountryComparison).Factor) * 100) :=
  ⟨(comparePPP_sorted_c4 comparePPPDemoFetch ["AA", "AB", "US"]).2.2.1 0 (by decide),
   (comparePPP_sorted_c4 comparePPPDemoFetch ["AA", "AB", "US"]).2.2.2
     ⟨"US", "United States", 1, 100, 1⟩ (by
       norm_num [ComparePPP, assignRanks, sortLoop, sortLoopFuel, passMin,
         buildComparisons, comparePPPDemoFetch])⟩

theorem buildComparisons_all_failed (fetch : String → Option PPPData)
    (i : Nat) (codes : List String) (hfail : ∀ c ∈ codes, fetch c = none) :
    buildComparisons fetch i codes = [] := by
  induction codes generalizing i with
  | nil => rfl
  | cons c cs ih =>
    rw [buildComparisons, hfail c (List.mem_cons_self c cs)]
    exact ih (i + 1) (fun c' hc' => hfail c' (List.mem_cons_of_mem c hc'))

/-- C10: `ComparePPP` never returns a non-nil error: its error component is
`nil` for every input, and when every country's fetch fails it returns the
empty list with a nil error — indistinguishable from running it on an empty
input list. -/
theorem comparePPP_no_error_c10 (fetch : String → Option PPPData)
    (codes : List String) (hfail : ∀ c ∈ codes, fetch c = none) :
    (∀ cs : List String, (ComparePPP fetch cs).2 = none) ∧
    ComparePPP fetch codes = ([], none) ∧
    ComparePPP fetch ([] : List String) = ([], none) := by
  refine ⟨fun _ => rfl, ?_, rfl⟩
  show (assignRanks 0 (sortLoop (buildComparisons fetch 0 codes)), _) = _
  rw [buildComparisons_all_failed fetch 0 codes hfail]
  rfl

/-- Witness for C10: a fetch that fails on every country, input
`["TR", "BR"]`. -/
theorem comparePPP_no_error_c10_witness :
    (∀ cs : List String, (ComparePPP (fun _ => none) cs).2 = none) ∧
    ComparePPP (fun _ => none) ["TR", "BR"] = ([], none) ∧
    ComparePPP (fun _ => none) ([] : List String) = ([], none) :=
  comparePPP_no_error_c10 (fun _ => none) ["TR", "BR"] (fun _ _ => rfl)

/-! ### `RecommendationEngine` (recommend.go): tiered pricing -/

/-- `PricingTier` from recommend.go. -/
structure PricingTier where
  Name : String
  MinPPPFactor : ℚ
  MaxPPPFactor : ℚ
  DiscountPercentage : ℚ
deriving DecidableEq

/-- `StandardPricingTiers` from recommend.go (0.3, 0.6, 0.9 are exact here;
the verified comparisons use the same literals on both sides, as Go does). -/
def StandardPricingTiers : List PricingTier :=
  [⟨"Premium", 0, 3/10, 70⟩,
   ⟨"Standard", 3/10, 6/10, 50⟩,
   ⟨"Regular", 6/10, 9/10, 25⟩,
   ⟨"Full Price", 9/10, 999, 0⟩]

/-- `RecommendationEngine.getTierForPPP`: first tier in list order whose
half-open interval `[MinPPPFactor, MaxPPPFactor)` contains the factor. -/
def getTierForPPP (pricingTiers : List PricingTier) (pppFactor : ℚ) :
    Option PricingTier :=
  pricingTiers.find? fun tier =>
    decide (pppFactor ≥ tier.MinPPPFactor) && decide (pppFactor < tier.MaxPPPFactor)

/-- `RecommendationEngine.RecommendWithStrategy`: validate the inputs, run the
base `Client.Recommend`, then — if a tier matches the base PPP factor —
overwrite `RecommendedPrice` with `price * (1 - tierDiscount/100)` and
`DiscountPercentage` with the tier's discount, leaving every other field of
the base recommendation unchanged. -/
def RecommendWithStrategy (getPPPf : String → Option PPPData)
    (getRatef : String → String → Option ExchangeRate)
    (pricingTiers : List PricingTier) (price : ℚ)
    (fromCurrency toCountry : String) : Option PriceRecommendation :=
  match ValidateAmount price with
  | some _ => none
  | none =>
  match ValidateCurrencyCode fromCurrency with
  | some _ => none
  | none =>
  match ValidateCountryCode toCountry with
  | some _ => none
  | none =>
  match Recommend getPPPf getRatef price fromCurrency toCountry with
  | none => none
  | some rec =>
    match getTierForPPP pricingTiers rec.PPPFactor with
    | some tier =>
      some { rec with
             RecommendedPrice := price * (1 - tier.DiscountPercentage / 100)
             DiscountPercentage := tier.DiscountPercentage }
    | none => some rec

/-- C5: `RecommendWithStrategy` selects the first tier (in list order) whose
half-open interval `[Min, Max)` contains the base PPP factor — in particular
a factor of exactly 0.3 matches the standard tier with lower bound 0.3, not
the one whose exclusive upper bound is 0.3; on a match it returns the base
recommendation with only `RecommendedPrice` (recomputed as
`amount * (1 - tierDiscount/100)`) and `DiscountPercentage` (the tier's
discount) replaced; with no matching tier the base recommendation is returned
unmodified. -/
theorem recommendWithStrategy_tiers_c5 (getPPPf : String → Option PPPData)
    (getRatef : String → String → Option ExchangeRate)
    (pricingTiers : List PricingTier) (price : ℚ)
    (fromCurrency toCountry : String) (rec : PriceRecommendation)
    (hA : ValidateAmount price = none)
    (hCur : ValidateCurrencyCode fromCurrency = none)
    (hCty : ValidateCountryCode toCountry = none)
    (hrec : Recommend getPPPf getRatef price fromCurrency toCountry = some rec) :
    RecommendWithStrategy getPPPf getRatef pricingTiers price fromCurrency
        toCountry = some
      (match getTierForPPP pricingTiers rec.PPPFactor with
       | some tier =>
         { rec with
           RecommendedPrice := price * (1 - tier.DiscountPercentage / 100)
           DiscountPercentage := tier.DiscountPercentage }
       | none => rec) ∧
    (∀ f tier, getTierForPPP pricingTiers f = some tier →
      tier.MinPPPFactor ≤ f ∧ f < tier.MaxPPPFactor) ∧
    (∀ f pre tier post, pricingTiers = pre ++ tier :: post →
      (∀ t ∈ pre, ¬ (t.MinPPPFactor ≤ f ∧ f < t.MaxPPPFactor)) →
      tier.MinPPPFactor ≤ f → f < tier.MaxPPPFactor →
      getTierForPPP pricingTiers f = some tier) ∧
    getTierForPPP StandardPricingTiers (3/10) =
      some ⟨"Standard", 3/10, 6/10, 50⟩ := by
  refine ⟨?_, ?_, ?_, ?_⟩
  · simp only [RecommendWithStrategy, hA, hCur, hCty, hrec]
    cases getTierForPPP pricingTiers rec.PPPFactor <;> rfl
  · intro f tier hfind
    have := List.find?_some hfind
    simp only [Bool.and_eq_true, decide_eq_true_eq, ge_iff_le] at this
    exact this
  · intro f pre tier post hsplit hpre hmin hmax
    rw [getTierForPPP, hsplit]
    refine find?_first _ pre tier post ?_ ?_
    · intro t ht
      have := hpre t ht
      simp only [Bool.and_eq_false_iff, decide_eq_false_iff_not, ge_iff_le, not_le, not_lt]
      by_cases hle : t.MinPPPFactor ≤ f
      · exact Or.inr (by

          exact not_lt.mp (fun hlt => this ⟨hle, hlt⟩))
      · exact Or.inl (by simpa using not_le.mp hle)
    · simp only [Bool.and_eq_true, decide_eq_true_eq, ge_iff_le]
      exact ⟨hmin, hmax⟩
  · rw [getTierForPPP, StandardPricingTiers]
    rw [show ([⟨"Premium", 0, 3/10, 70⟩,
          ⟨"Standard", 3/10, 6/10, 50⟩,
          ⟨"Regular", 6/10, 9/10, 25⟩,
          ⟨"Full Price", 9/10, 999, 0⟩] : List PricingTier) =
        [⟨"Premium", 0, 3/10, 70⟩] ++ ⟨"Standard", 3/10, 6/10, 50⟩ ::
          [⟨"Regular", 6/10, 9/10, 25⟩, ⟨"Full Price", 9/10, 999, 0⟩] from rfl]
    refine find?_first _ _ _ _ ?_ ?_
    · intro t ht
      simp only [List.mem_singleton] at ht
      subst ht
      simp only [Bool.and_eq_false_iff, decide_eq_false_iff_not, not_lt]
      exact Or.inr (by norm_num)
    · simp only [Bool.and_eq_true, decide_eq_true_eq, ge_iff_le]
      norm_num

/-- Witness for C5: validations pass for amount 100, `USD → TR`; the base
recommendation has factor 3/10, which lands in the "Standard" tier. -/
theorem recommendWithStrategy_tiers_c5_witness :
    RecommendWithStrategy (fun _ => some ⟨"TR", "Turkiye", 2023, 3/10, "World Bank"⟩)
        (fun _ _ => some ⟨"USD", "TRY", 2⟩) StandardPricingTiers 100 "USD" "TR" =
      some
        (match getTierForPPP StandardPricingTiers
            ((⟨100, "USD", 100 * (3/10), "TRY", 3/10, 2,
              ((100 * 2 - 100 * (3/10)) / (100 * 2)) * 100⟩ :
              PriceRecommendation)).PPPFactor with
         | some tier =>
           { (⟨100, "USD", 100 * (3/10), "TRY", 3/10, 2,
               ((100 * 2 - 100 * (3/10)) / (100 * 2)) * 100⟩ :
               PriceRecommendation) with
             RecommendedPrice := 100 * (1 - tier.DiscountPercentage / 100)
             DiscountPercentage := tier.DiscountPercentage }
         | none =>
           ⟨100, "USD", 100 * (3/10), "TRY", 3/10, 2,
             ((100 * 2 - 100 * (3/10)) / (100 * 2)) * 100⟩) ∧
    getTierForPPP StandardPricingTiers (3/10) =
      some ⟨"Standard", 3/10, 6/10, 50⟩ := by
  have h := recommendWithStrategy_tiers_c5
    (fun _ => some ⟨"TR", "Turkiye", 2023, 3/10, "World Bank"⟩)
    (fun _ _ => some ⟨"USD", "TRY", 2⟩) StandardPricingTiers 100 "USD" "TR"
    ⟨100, "USD", 100 * (3/10), "TRY", 3/10, 2,
      ((100 * 2 - 100 * (3/10)) / (100 * 2)) * 100⟩
    (by decide) (by decide) (by decide) rfl
  exact ⟨h.1, h.2.2.2⟩

/-! ### `Client.AnalyzePPPTrend` (currency.go) -/

/-- `Client.AnalyzePPPTrend` on the data returned by the historical fetch
(newest-first, as delivered by the provider). `none` models the
`"no data available for analysis"` error on an empty sequence. -/
def AnalyzePPPTrend (data : List PPPData) (countryCode : String)
    (startYear endYear : Int) : Option PPPTrendAnalysis :=
  match data with
  | [] => none
  | d :: ds =>
    let all := d :: ds
    let sum := (all.map fun x => x.Factor).sum
    let average := sum / (all.length : ℚ)
    let trend :=
      if 2 ≤ all.length then
        let firstYear := (all.getLastD d).Factor
        let lastYear := d.Factor
        let change := ((lastYear - firstYear) / firstYear) * 100
        if 10 < change then "increasing"
        else if change < -10 then "decreasing"
        else "stable"
      else "stable"
    let variance := (all.map fun x => (x.Factor - average) * (x.Factor - average)).sum
    let volatility := if 1 < all.length then variance / ((all.length : ℚ) - 1) else 0
    some { Country := countryCode
           StartYear := startYear
           EndYear := endYear
           Average := average
           Trend := trend
           Volatility := volatility
           DataPoints := all.length }

/-- Modelled from the spec: the arithmetic mean of a list of factors. -/
def specMean (xs : List ℚ) : ℚ := xs.sum / (xs.length : ℚ)

/-- Modelled from the spec: the sample variance `Σ(x-mean)² / (n-1)`, defined
as 0 when `n ≤ 1`. -/
def specSampleVariance (xs : List ℚ) : ℚ :=
  if xs.length ≤ 1 then 0
  else (xs.map fun x => (x - specMean xs) ^ 2).sum / ((xs.length : ℚ) - 1)

/-- Modelled from the spec: classify the percent change
`(newest - oldest)/oldest * 100` between the first (newest) and last (oldest)
element of the newest-first factor sequence. -/
def specTrendLabel (xs : List ℚ) : String :=
  let newest := xs.headD 0
  let oldest := xs.getLastD 0
  let change := ((newest - oldest) / oldest) * 100
  if 10 < change then "increasing"
  else if change < -10 then "decreasing"
  else "stable"

theorem map_getLastD (f : PPPData → ℚ) :
    ∀ (l : List PPPData) (x : PPPData) (b : ℚ) (d : PPPData),
      ((x :: l).map f).getLastD b = f ((x :: l).getLastD d) := by
  intro l
  induction l with
  | nil => intro x b d; rfl
  | cons y ys ih =>
    intro x b d
    show ((y :: ys).map f).getLastD (f x) = f ((y :: ys).getLastD x)
    exact ih y (f x) x

/-- C7: on `n` fetched data points, `AnalyzePPPTrend` succeeds with `Average`
the arithmetic mean of the factors, `Trend` the classification of the percent
change `(newest - oldest)/oldest * 100` between the last (oldest) and first
(newest) element of the newest-first sequence ("increasing" above 10,
"decreasing" below -10, else "stable"), `Volatility` the sample variance
`Σ(x-mean)²/(n-1)`; for `n = 1` the result has `Volatility` 0 and trend
"stable". -/
theorem analyzePPPTrend_c7 (data : List PPPData) (countryCode : String)
    (startYear endYear : Int) (h : data ≠ []) :
    ∃ r, AnalyzePPPTrend data countryCode startYear endYear = some r ∧
      r.Average = specMean (data.map fun x => x.Factor) ∧
      r.Volatility = specSampleVariance (data.map fun x => x.Factor) ∧
      r.Trend = specTrendLabel (data.map fun x => x.Factor) ∧
      r.DataPoints = data.length ∧
      (data.length = 1 → r.Volatility = 0 ∧ r.Trend = "stable") := by
  cases data with
  | nil => exact absurd rfl h
  | cons d ds =>
    refine ⟨_, rfl, ?_, ?_, ?_, ?_, ?_⟩
    · simp [specMean, List.length_map]
    · cases ds with
      | nil => simp [specSampleVariance]
      | cons e es =>
        simp only [specSampleVariance, List.length_map, List.length_cons]
        rw [if_pos (by omega), if_neg (by omega)]
        simp [List.map_map, Function.comp_def, pow_two, specMean, List.length_map]
    · cases ds with
      | nil =>
        norm_num [specTrendLabel]
      | cons e es =>
        have hhead : ((d :: e :: es).map fun x => x.Factor).headD 0 = d.Factor := rfl
        have hlast : ((d :: e :: es).map fun x => x.Factor).getLastD 0 =
            ((d :: e :: es).getLastD d).Factor :=
          map_getLastD (fun x => x.Factor) (e :: es) d 0 d
        simp only [specTrendLabel, hhead, hlast, List.length_cons]
        rw [if_pos (by omega)]
    · rfl
    · intro hlen
      have hds : ds = [] := by
        simp only [List.length_cons] at hlen
        exact List.eq_nil_of_length_eq_zero (by omega)
      subst hds
      exact ⟨by simp, by simp⟩

/-- Witness for C7: a single data point — volatility 0 and trend "stable". -/
theorem analyzePPPTrend_c7_witness :
    ∃ r, AnalyzePPPTrend [⟨"TR", "Turkiye", 2023, 4, "World Bank"⟩]
        "TR" 2013 2023 = some r ∧
      r.Average = specMean (([⟨"TR", "Turkiye", 2023, 4, "World Bank"⟩] :
        List PPPData).map fun x => x.Factor) ∧
      r.Volatility = specSampleVariance (([⟨"TR", "Turkiye", 2023, 4, "World Bank"⟩] :
        List PPPData).map fun x => x.Factor) ∧
      r.Trend = specTrendLabel (([⟨"TR", "Turkiye", 2023, 4, "World Bank"⟩] :
        List PPPData).map fun x => x.Factor) ∧
      r.DataPoints = ([⟨"TR", "Turkiye", 2023, 4, "World Bank"⟩] :
        List PPPData).length ∧
      (([⟨"TR", "Turkiye", 2023, 4, "World Bank"⟩] : List PPPData).length = 1 →
        r.Volatility = 0 ∧ r.Trend = "stable") :=
  analyzePPPTrend_c7 [⟨"TR", "Turkiye", 2023, 4, "World Bank"⟩] "TR" 2013 2023
    (by decide)

/-! ### Package-level `BatchRecommend` (convenience facade file) -/

/-- Go map read on the results map (modelled as an association list with
unique keys). -/
def lookupKey (m : List (String × ℚ)) (k : String) : Option ℚ :=
  match m.find? (fun kv => kv.1 = k) with
  | some kv => some kv.2
  | none => none

/-- Go map assignment `results[k] = v` (keeps keys unique; iteration order of
a Go map is unspecified, so entry order carries no meaning). -/
def upsert (m : List (String × ℚ)) (k : String) (v : ℚ) : List (String × ℚ) :=
  (k, v) :: m.filter (fun kv => ¬ kv.1 = k)

/-- The value `BatchRecommend` stores for a country: the recommended price on
success, the sentinel 0 on failure. -/
def batchValue (recommend : String → Option PriceRecommendation) (c : String) : ℚ :=
  match recommend c with
  | none => 0
  | some rec => rec.RecommendedPrice

/-- The `for _, country := range toCountries` loop of `BatchRecommend`:
failures store the sentinel 0 and set the error flag (`lastError`), successes
store `rec.RecommendedPrice`. -/
def batchLoop (recommend : String → Option PriceRecommendation) :
    List String → List (String × ℚ) → Bool → List (String × ℚ) × Bool
  | [], results, lastError => (results, lastError)
  | c :: cs, results, lastError =>
    match recommend c with
    | none => batchLoop recommend cs (upsert results c 0) true
    | some rec => batchLoop recommend cs (upsert results c rec.RecommendedPrice) lastError

/-- Package-level `BatchRecommend`: validate price, currency, non-empty
country list and every country code; run the loop; return a hard error
(`none`) only when no stored price is positive and some call failed.
`recommend` abstracts `defaultClient.Recommend` at the fixed price/currency. -/
def BatchRecommend (recommend : String → Option PriceRecommendation)
    (price : ℚ) (fromCurrency : String) (toCountries : List String) :
    Option (List (String × ℚ)) :=
  match ValidateAmount price with
  | some _ => none
  | none =>
  match ValidateCurrencyCode fromCurrency with
  | some _ => none
  | none =>
  if toCountries.isEmpty then none
  else if toCountries.any (fun c => (ValidateCountryCode c).isSome) then none
  else
    let st := batchLoop recommend toCountries [] false
    let allFailed := st.1.all (fun kv => ¬ 0 < kv.2)
    if allFailed && st.2 then none else some st.1

/-- Key-preserving `find?` through a filter that removes only another key. -/
theorem find?_filter_ne {α κ : Type} [DecidableEq κ] (keyOf : α → κ) (k k2 : κ)
    (h : ¬ k2 = k) (l : List α) :
    (l.filter fun a => ¬ keyOf a = k).find? (fun a => keyOf a = k2) =
      l.find? (fun a => keyOf a = k2) := by
  induction l with
  | nil => rfl
  | cons a as ih =>
    by_cases ha : keyOf a = k
    · rw [List.filter_cons_of_neg (by simp [ha])]
      rw [List.find?_cons_of_neg _ (by simp [ha]; exact fun hh => h hh.symm)]
      exact ih
    · rw [List.filter_cons_of_pos (by simp [ha])]
      by_cases hb : keyOf a = k2
      · rw [List.find?_cons_of_pos _ (by simp [hb]), List.find?_cons_of_pos _ (by simp [hb])]
      · rw [List.find?_cons_of_neg _ (by simp [hb]), List.find?_cons_of_neg _ (by simp [hb])]
        exact ih

theorem lookupKey_upsert_self (m : List (String × ℚ)) (k : String) (v : ℚ) :
    lookupKey (upsert m k v) k = some v := by
  simp only [lookupKey, upsert]
  rw [List.find?_cons_of_pos _ (by simp)]

theorem lookupKey_upsert_ne (m : List (String × ℚ)) (k k2 : String) (v : ℚ)
    (h : ¬ k2 = k) :
    lookupKey (upsert m k v) k2 = lookupKey m k2 := by
  simp only [lookupKey, upsert]
  rw [List.find?_cons_of_neg _ (by simp; exact fun hh => h hh.symm)]
  rw [find?_filter_ne (fun kv => kv.1) k k2 h m]

/-- Both loop branches store `batchValue` for the country and OR the failure
flag into `lastError`. -/
theorem batchLoop_cons (recommend : String → Option PriceRecommendation)
    (c : String) (cs : List String) (acc : List (String × ℚ)) (err : Bool) :
    batchLoop recommend (c :: cs) acc err =
      batchLoop recommend cs (upsert acc c (batchValue recommend c))
        (err || (recommend c).isNone) := by
  cases hrc : recommend c <;> simp [batchLoop, batchValue, hrc]

theorem batchLoop_lookup (recommend : String → Option PriceRecommendation) :
    ∀ (cs : List String) (acc : List (String × ℚ)) (err : Bool) (c : String),
      lookupKey (batchLoop recommend cs acc err).1 c =
        if c ∈ cs then some (batchValue recommend c) else lookupKey acc c := by
  intro cs
  induction cs with
  | nil => intro acc err c; simp [batchLoop]
  | cons c' cs' ih =>
    intro acc err c
    rw [batchLoop_cons, ih]
    by_cases hc : c = c'
    · subst hc
      by_cases hcs : c ∈ cs' <;> simp [hcs, lookupKey_upsert_self]
    · by_cases hcs : c ∈ cs' <;>
        simp [hcs, hc, lookupKey_upsert_ne _ _ _ _ hc]

theorem batchLoop_err (recommend : String → Option PriceRecommendation) :
    ∀ (cs : List String) (acc : List (String × ℚ)) (err : Bool),
      (batchLoop recommend cs acc err).2 =
        (err || cs.any fun c => (recommend c).isNone) := by
  intro cs
  induction cs with
  | nil => intro acc err; simp [batchLoop]
  | cons c' cs' ih =>
    intro acc err
    rw [batchLoop_cons, ih, List.any_cons, Bool.or_assoc]

theorem batchLoop_mem (recommend : String → Option PriceRecommendation) :
    ∀ (cs : List String) (acc : List (String × ℚ)) (err : Bool),
      ∀ kv ∈ (batchLoop recommend cs acc err).1,
        kv ∈ acc ∨ (kv.1 ∈ cs ∧ kv.2 = batchValue recommend kv.1) := by
  intro cs
  induction cs with
  | nil => intro acc err kv hkv; exact Or.inl hkv
  | cons c' cs' ih =>
    intro acc err kv hkv
    rw [batchLoop_cons] at hkv
    rcases ih _ _ kv hkv with hup | ⟨hin, hval⟩
    · rcases List.mem_cons.mp hup with rfl | hfil
      · exact Or.inr ⟨List.mem_cons_self _ _, rfl⟩
      · exact Or.inl (List.mem_of_mem_filter hfil)
    · exact Or.inr ⟨List.mem_cons_of_mem c' hin, hval⟩

theorem upsert_keys_nodup (m : List (String × ℚ)) (k : String) (v : ℚ)
    (h : (m.map fun kv => kv.1).Nodup) :
    ((upsert m k v).map fun kv => kv.1).Nodup := by
  simp only [upsert, List.map_cons, List.nodup_cons]
  constructor
  · intro hmem
    obtain ⟨kv, hkv, hk⟩ := List.mem_map.mp hmem
    have hne := List.of_mem_filter hkv
    simp only [decide_not, Bool.not_eq_true', decide_eq_false_iff_not] at hne
    exact hne hk
  · exact h.sublist ((List.filter_sublist m).map _)

theorem batchLoop_keys_nodup (recommend : String → Option PriceRecommendation) :
    ∀ (cs : List String) (acc : List (String × ℚ)) (err : Bool),
      (acc.map fun kv => kv.1).Nodup →
      ((batchLoop recommend cs acc err).1.map fun kv => kv.1).Nodup := by
  intro cs
  induction cs with
  | nil => intro acc err h; exact h
  | cons c' cs' ih =>
    intro acc err h
    rw [batchLoop_cons]
    exact ih _ _ (upsert_keys_nodup acc c' _ h)

/-- C8: for a valid positive price, valid currency, and non-empty list of
valid country codes (with every successful recommendation carrying a positive
price, as `Recommend` guarantees for positive inputs), `BatchRecommend`
returns a map with exactly one entry per requested country — failed countries
marked with the sentinel price 0, successful countries carrying their
recommended price — and returns a hard error if and only if every requested
country failed. -/
theorem batchRecommend_c8 (recommend : String → Option PriceRecommendation)
    (price : ℚ) (fromCurrency : String) (toCountries : List String)
    (hA : ValidateAmount price = none)
    (hCur : ValidateCurrencyCode fromCurrency = none)
    (hne : toCountries ≠ [])
    (hcty : ∀ c ∈ toCountries, ValidateCountryCode c = none)
    (hpos : ∀ c r, recommend c = some r → 0 < r.RecommendedPrice) :
    (BatchRecommend recommend price fromCurrency toCountries = none ↔
      ∀ c ∈ toCountries, recommend c = none) ∧
    (∀ m, BatchRecommend recommend price fromCurrency toCountries = some m →
      (∀ c, (lookupKey m c).isSome ↔ c ∈ toCountries) ∧
      (m.map fun kv => kv.1).Nodup ∧
      (∀ c ∈ toCountries, recommend c = none → lookupKey m c = some 0) ∧
      (∀ c r, c ∈ toCountries → recommend c = some r →
        lookupKey m c = some r.RecommendedPrice)) := by
  have hempty : toCountries.isEmpty = false := by
    cases toCountries with
    | nil => exact absurd rfl hne
    | cons a as => rfl
  have hvalid : (toCountries.any fun c => (ValidateCountryCode c).isSome) = false := by
    rw [List.any_eq_false]
    intro c hc
    simp [hcty c hc]
  have hred : BatchRecommend recommend price fromCurrency toCountries =
      (if ((batchLoop recommend toCountries [] false).1.all fun kv => ¬ 0 < kv.2) &&
          (batchLoop recommend toCountries [] false).2 then none
       else some (batchLoop recommend toCountries [] false).1) := by
    simp only [BatchRecommend, hA, hCur, hempty, hvalid, Bool.false_eq_true,
      if_false]
  have hlkup : ∀ c, lookupKey (batchLoop recommend toCountries [] false).1 c =
      if c ∈ toCountries then some (batchValue recommend c) else none := by
    intro c
    rw [batchLoop_lookup]
    rfl
  have hallfail : (((batchLoop recommend toCountries [] false).1.all
      fun kv => ¬ 0 < kv.2) = true) ↔ ∀ c ∈ toCountries, recommend c = none := by
    constructor
    · intro hall c hc
      have hlk : lookupKey (batchLoop recommend toCountries [] false).1 c =
          some (batchValue recommend c) := by rw [hlkup]; simp [hc]
      cases hf : (batchLoop recommend toCountries [] false).1.find?
          (fun kv => kv.1 = c) with
      | none => simp [lookupKey, hf] at hlk
      | some kv =>
        have hmem := List.mem_of_find?_eq_some hf
        have heq : kv.2 = batchValue recommend c := by
          simp only [lookupKey, hf] at hlk
          exact Option.some_injective _ hlk
        have hnp := List.all_eq_true.mp hall kv hmem
        simp only [decide_eq_true_eq] at hnp
        cases hrc : recommend c with
        | none => rfl
        | some r =>
          exfalso
          apply hnp
          rw [heq, batchValue, hrc]
          exact hpos c r hrc
    · intro hfail
      rw [List.all_eq_true]
      intro kv hkv
      rcases batchLoop_mem recommend toCountries [] false kv hkv with hacc | ⟨hcin, hval⟩
      · simp at hacc
      · have hv0 : batchValue recommend kv.1 = 0 := by
          rw [batchValue, hfail kv.1 hcin]
        simp [hval, hv0]
  have herr : (batchLoop recommend toCountries [] false).2 =
      toCountries.any fun c => (recommend c).isNone := by
    rw [batchLoop_err]
    rfl
  by_cases hb : (((batchLoop recommend toCountries [] false).1.all
      fun kv => ¬ 0 < kv.2) && (batchLoop recommend toCountries [] false).2) = true
  · rw [hred, if_pos hb]
    rcases Bool.and_eq_true_iff.mp hb with ⟨hall, _⟩
    exact ⟨⟨fun _ => hallfail.mp hall, fun _ => rfl⟩, fun m hm => absurd hm (by simp)⟩
  · rw [hred, if_neg hb]
    constructor
    · constructor
      · intro hcontr
        exact absurd hcontr (by simp)
      · intro hfail
        exfalso
        apply hb
        rw [Bool.and_eq_true_iff]
        refine ⟨hallfail.mpr hfail, ?_⟩
        rw [herr, List.any_eq_true]
        cases toCountries with
        | nil => exact absurd rfl hne
        | cons a as =>
          exact ⟨a, List.mem_cons_self a as,
            by simp [hfail a (List.mem_cons_self a as)]⟩
    · intro m hm
      have hm' : m = (batchLoop recommend toCountries [] false).1 :=
        (Option.some_injective _ hm).symm
      subst hm'
      refine ⟨?_, batchLoop_keys_nodup recommend toCountries [] false (by simp), ?_, ?_⟩
      · intro c
        rw [hlkup]
        by_cases hc : c ∈ toCountries <;> simp [hc]
      · intro c hc hrc
        rw [hlkup]
        simp only [hc, if_pos]
        rw [batchValue, hrc]
      · intro c r hc hrc
        rw [hlkup]
        simp only [hc, if_pos]
        rw [batchValue, hrc]

/-- Witness for C8: two countries, one failing, one succeeding with price
120; the map holds the sentinel 0 for the failure and 120 for the success,
and no hard error is returned. -/
theorem batchRecommend_c8_witness :
    (BatchRecommend
        (fun c => if c = "TR" then
          some ⟨100, "USD", 120, "TRY", 6/5, 2, 40⟩ else none)
        100 "USD" ["TR", "XX"] = none ↔
      ∀ c ∈ ["TR", "XX"],
        (if c = "TR" then
          some ⟨100, "USD", 120, "TRY", 6/5, 2, 40⟩
        else none : Option PriceRecommendation) = none) ∧
    (∀ m, BatchRecommend
        (fun c => if c = "TR" then
          some ⟨100, "USD", 120, "TRY", 6/5, 2, 40⟩ else none)
        100 "USD" ["TR", "XX"] = some m →
      (∀ c, (lookupKey m c).isSome ↔ c ∈ ["TR", "XX"]) ∧
      (m.map fun kv => kv.1).Nodup ∧
      (∀ c ∈ ["TR", "XX"],
        (if c = "TR" then
          some ⟨100, "USD", 120, "TRY", 6/5, 2, 40⟩
        else none : Option PriceRecommendation) = none →
        lookupKey m c = some 0) ∧
      (∀ (c : String) (r : PriceRecommendation), c ∈ ["TR", "XX"] →
        (if c = "TR" then
          some ⟨100, "USD", 120, "TRY", 6/5, 2, 40⟩
        else none : Option PriceRecommendation) = some r →
        lookupKey m c = some r.RecommendedPrice)) :=
  batchRecommend_c8
    (fun c => if c = "TR" then some ⟨100, "USD", 120, "TRY", 6/5, 2, 40⟩ else none)
    100 "USD" ["TR", "XX"] (by decide) (by decide) (by decide)
    (by
      intro c hc
      fin_cases hc <;> decide)
    (by
      intro c r h
      by_cases hc : c = "TR"
      · simp only [hc, if_pos] at h
        rw [← Option.some_injective _ h]
        norm_num
      · simp [hc] at h)

/-! ### `RoundPrice` and `CalculateMarketBasket` (recommend.go) -/

/-- The `noDecimalCurrencies` set in `RoundPrice`. -/
def noDecimalCurrencies : List String :=
  ["JPY", "KRW", "IDR", "VND", "CLP", "PYG", "RWF", "XAF", "XOF", "XPF"]

/-- Go's `math.Round`: round half away from zero. -/
def mathRound (x : ℚ) : ℤ :=
  if 0 ≤ x then ⌊x + 1/2⌋ else -⌊-x + 1/2⌋

/-- `RoundPrice`: integral rounding for the no-decimal currencies, two
decimal places for all others. -/
def RoundPrice (price : ℚ) (currency : String) : ℚ :=
  if currency ∈ noDecimalCurrencies then (mathRound price : ℚ)
  else (mathRound (price * 100) : ℚ) / 100

/-- The `for item, price := range items` loop of `CalculateMarketBasket`:
each item's amount is validated inside the loop; the first invalid amount
aborts the whole call (the partially built result map is discarded). -/
def basketLoop (ppp : PPPData) (rate : ExchangeRate) (toCurrency : String) :
    List (String × ℚ) → Option (List (String × ℚ))
  | [] => some []
  | (item, price) :: rest =>
    match ValidateAmount price with
    | some _ => none
    | none =>
      match basketLoop ppp rate toCurrency rest with
      | none => none
      | some results =>
        some ((item, RoundPrice (price * (ppp.Factor / rate.Rate)) toCurrency)
          :: results)

/-- `CalculateMarketBasket`, instrumented with the number of provider calls
performed (the `Client.GetPPP` and `Client.GetExchangeRate` reads on the
cache-miss/provider path, in source order): currency code, country code and
non-emptiness are validated up front, then PPP and the exchange rate are
fetched once each, and only then does the item loop validate each amount. -/
def CalculateMarketBasket (getPPPf : String → Option PPPData)
    (getRatef : String → String → Option ExchangeRate)
    (items : List (String × ℚ)) (fromCurrency toCountry : String) :
    Option (List (String × ℚ)) × Nat :=
  match ValidateCurrencyCode fromCurrency with
  | some _ => (none, 0)
  | none =>
  match ValidateCountryCode toCountry with
  | some _ => (none, 0)
  | none =>
  if items.isEmpty then (none, 0)
  else
    match getPPPf toCountry with
    | none => (none, 1)
    | some ppp =>
      let toCurrency := getCurrencyForCountry toCountry
      match getRatef fromCurrency toCurrency with
      | none => (none, 2)
      | some rate =>
        match basketLoop ppp rate toCurrency items with
        | none => (none, 2)
        | some results => (some results, 2)

theorem basketLoop_invalid (ppp : PPPData) (rate : ExchangeRate)
    (toCurrency : String) :
    ∀ items, (∃ kv ∈ items, (ValidateAmount kv.2).isSome) →
      basketLoop ppp rate toCurrency items = none := by
  intro items
  induction items with
  | nil => intro h; simp at h
  | cons kv rest ih =>
    intro h
    obtain ⟨kv', hkv', hbad⟩ := h
    obtain ⟨item, price⟩ := kv
    cases hv : ValidateAmount price with
    | some e => simp [basketLoop, hv]
    | none =>
      rcases List.mem_cons.mp hkv' with rfl | hrest
      · rw [hv] at hbad
        simp at hbad
      · rw [basketLoop, hv, ih ⟨kv', hrest, hbad⟩]

/-- Counterexample to C9 as stated: with working providers and the basket
`[("widget", 0)]` whose single amount is invalid (zero), the call does fail
with an error and no price map — but only after both provider fetches have
been made (2 network calls), not before any network call: item-amount
validation happens inside the pricing loop, after `GetPPP` and
`GetExchangeRate`. -/
theorem calculateMarketBasket_c9_counterexample :
    CalculateMarketBasket (fun _ => some ⟨"TR", "Turkiye", 2023, 12, "World Bank"⟩)
        (fun _ _ => some ⟨"USD", "TRY", 2⟩) [("widget", 0)] "USD" "TR" =
      (none, 2) ∧
    CalculateMarketBasket (fun _ => some ⟨"TR", "Turkiye", 2023, 12, "World Bank"⟩)
        (fun _ _ => some ⟨"USD", "TRY", 2⟩) [("widget", 0)] "USD" "TR" ≠
      (none, 0) := by
  constructor
  · decide
  · decide

/-- C9 (amended): if any item amount in a `CalculateMarketBasket` call is
invalid (zero, negative, or greater than 1e15), the whole batch aborts — the
call fails with an error and returns no price map at all; this item-amount
validation failure is raised after the single PPP fetch and the single
exchange-rate fetch, so exactly two provider calls have been made (not zero:
only the currency-code, country-code and empty-basket validations precede all
network calls). -/
theorem calculateMarketBasket_c9 (getPPPf : String → Option PPPData)
    (getRatef : String → String → Option ExchangeRate)
    (items : List (String × ℚ)) (fromCurrency toCountry : String)
    (ppp : PPPData) (rate : ExchangeRate)
    (hCur : ValidateCurrencyCode fromCurrency = none)
    (hCty : ValidateCountryCode toCountry = none)
    (hne : items ≠ [])
    (hp : getPPPf toCountry = some ppp)
    (hr : getRatef fromCurrency (getCurrencyForCountry toCountry) = some rate)
    (hbad : ∃ kv ∈ items, (ValidateAmount kv.2).isSome) :
    CalculateMarketBasket getPPPf getRatef items fromCurrency toCountry =
      (none, 2) := by
  have hempty : items.isEmpty = false := by
    cases items with
    | nil => exact absurd rfl hne
    | cons a as => rfl
  rw [CalculateMarketBasket, hCur, hCty]
  simp only [hempty, Bool.false_eq_true, if_false, hp, hr,
    basketLoop_invalid ppp rate (getCurrencyForCountry toCountry) items hbad]

/-- Witness for C9 (amended): the same concrete basket with a zero amount. -/
theorem calculateMarketBasket_c9_witness :
    CalculateMarketBasket (fun _ => some ⟨"TR", "Turkiye", 2023, 12, "World Bank"⟩)
        (fun _ _ => some ⟨"USD", "TRY", 2⟩) [("widget", 0)] "USD" "TR" =
      (none, 2) :=
  calculateMarketBasket_c9 (fun _ => some ⟨"TR", "Turkiye", 2023, 12, "World Bank"⟩)
    (fun _ _ => some ⟨"USD", "TRY", 2⟩) [("widget", 0)] "USD" "TR"
    ⟨"TR", "Turkiye", 2023, 12, "World Bank"⟩ ⟨"USD", "TRY", 2⟩
    (by decide) (by decide) (by decide) rfl rfl
    ⟨("widget", 0), by decide, by decide⟩

/-! ### Cache export / import (cache file) -/

/-- go-cache `Items()` followed by the export serialization: the live
(unexpired at export time) entries as key → payload pairs. Serialization to
JSON and back is content-preserving for these payload types, so the file
contents are modelled as the pairs themselves. -/
def ExportCache (c : CacheMap) (now : Nat) : List (List Char × CachePayload) :=
  (c.filter fun e => now ≤ e.expiration).map fun e => (e.key, e.payload)

/-- One iteration of the import loop of `Cache.ImportFromFile`: dispatch on
the key's namespace prefix (byte slicing in Go; the keys are ASCII so
character slicing coincides), decode the payload as the type reserved for
that namespace, and store it with the importing cache's default expiration
(`now + cacheDuration`). A key with an unknown prefix, or a payload that does
not decode as the namespace's type (the mismatched-tag arms here), is
silently skipped. -/
def importOne (c : CacheMap) (key : List Char) (payload : CachePayload)
    (now cacheDuration : Nat) : CacheMap :=
  if 4 < key.length ∧ key.take 4 = "ppp:".data then
    match payload with
    | CachePayload.pppD d => cacheSet c key (CachePayload.pppD d) (now + cacheDuration)
    | _ => c
  else if 5 < key.length ∧ key.take 5 = "rate:".data then
    match payload with
    | CachePayload.rateD r => cacheSet c key (CachePayload.rateD r) (now + cacheDuration)
    | _ => c
  else if key = "countries:all".data then
    match payload with
    | CachePayload.countriesD cs =>
      cacheSet c key (CachePayload.countriesD cs) (now + cacheDuration)
    | _ => c
  else if 17 < key.length ∧ key.take 17 = "indicators:search".data then
    match payload with
    | CachePayload.indicatorsD il =>
      cacheSet c key (CachePayload.indicatorsD il) (now + cacheDuration)
    | _ => c
  else c

/-- `Cache.ImportFromFile` after a successful read and JSON parse: run the
loop importing the file's entries (a JSON object: keys are unique, and Go
map iteration order is unspecified). -/
def ImportCache (c : CacheMap) (entries : List (List Char × CachePayload))
    (now cacheDuration : Nat) : CacheMap :=
  match entries with
  | [] => c
  | (k, p) :: rest =>
    ImportCache (importOne c k p now cacheDuration) rest now cacheDuration

/-- The key shapes the library itself writes (the four namespaces of the
claim), each paired with the payload type its namespace stores. The country
code of a `ppp:` key is nonempty (2 letters in every valid use): Go's import
dispatch demands `len(key) > 4`. -/
def WFKeyPayload : List Char → CachePayload → Prop
  | k, CachePayload.pppD _ => ∃ cc : String, cc ≠ "" ∧ k = CacheKeyPPP cc
  | k, CachePayload.rateD _ => ∃ f t : String, k = CacheKeyExchangeRate f t
  | k, CachePayload.countriesD _ => k = CacheKeyCountries
  | k, CachePayload.indicatorsD _ => ∃ q : String, k = CacheKeyIndicators q

theorem string_data_ne_nil {s : String} (h : s ≠ "") : s.data ≠ [] := by
  intro hd
  apply h
  cases s with
  | mk data =>
    subst hd
    rfl

theorem take_append_left {l1 l2 : List Char} {n : Nat} (h : n ≤ l1.length) :
    (l1 ++ l2).take n = l1.take n := by
  rw [List.take_append_eq_append_take]
  have h0 : n - l1.length = 0 := by omega
  rw [h0]
  simp

/-- On a key the library itself wrote, the import dispatch recognizes the
namespace prefix and re-stores the payload unchanged (with the importing
cache's default expiration). -/
theorem importOne_wf (c : CacheMap) (k : List Char) (p : CachePayload)
    (now d : Nat) (hwf : WFKeyPayload k p) :
    importOne c k p now d = cacheSet c k p (now + d) := by
  cases p with
  | pppD dd =>
    obtain ⟨cc, hcc, rfl⟩ := hwf
    have hpos : 0 < cc.data.length :=
      List.length_pos.mpr (string_data_ne_nil hcc)
    have hlen : 4 < (CacheKeyPPP cc).length := by
      rw [CacheKeyPPP, List.length_append,
        show ("ppp:".data).length = 4 from by decide]
      omega
    have htake : (CacheKeyPPP cc).take 4 = "ppp:".data := by
      rw [CacheKeyPPP]
      exact List.take_left' (by decide)
    rw [importOne, if_pos ⟨hlen, htake⟩]
  | rateD r =>
    obtain ⟨f, t, rfl⟩ := hwf
    have h1 : ¬ (4 < (CacheKeyExchangeRate f t).length ∧
        (CacheKeyExchangeRate f t).take 4 = "ppp:".data) := by
      rintro ⟨-, ht⟩
      rw [CacheKeyExchangeRate, take_append_left (by decide)] at ht
      exact absurd ht (by decide)
    have hlen : 5 < (CacheKeyExchangeRate f t).length := by
      rw [CacheKeyExchangeRate, List.length_append, List.length_append,
        List.length_append, show ("rate:".data).length = 5 from by decide,
        show (":".data).length = 1 from by decide]
      omega
    have htake : (CacheKeyExchangeRate f t).take 5 = "rate:".data := by
      rw [CacheKeyExchangeRate]
      exact List.take_left' (by decide)
    rw [importOne, if_neg h1, if_pos ⟨hlen, htake⟩]
  | countriesD cs =>
    rw [show k = CacheKeyCountries from hwf]
    rw [importOne, if_neg (by decide), if_neg (by decide),
      if_pos (show CacheKeyCountries = "countries:all".data from rfl)]
  | indicatorsD il =>
    obtain ⟨q, rfl⟩ := hwf
    have h1 : ¬ (4 < (CacheKeyIndicators q).length ∧
        (CacheKeyIndicators q).take 4 = "ppp:".data) := by
      rintro ⟨-, ht⟩
      rw [CacheKeyIndicators, take_append_left (by decide)] at ht
      exact absurd ht (by decide)
    have h2 : ¬ (5 < (CacheKeyIndicators q).length ∧
        (CacheKeyIndicators q).take 5 = "rate:".data) := by
      rintro ⟨-, ht⟩
      rw [CacheKeyIndicators, take_append_left (by decide)] at ht
      exact absurd ht (by decide)
    have h3 : ¬ (CacheKeyIndicators q = "countries:all".data) := by
      intro heq
      have hl := congrArg List.length heq
      rw [CacheKeyIndicators, List.length_append,
        show ("indicators:search:".data).length = 18 from by decide,
        show ("countries:all".data).length = 13 from by decide] at hl
      omega
    have hlen : 17 < (CacheKeyIndicators q).length := by
      rw [CacheKeyIndicators, List.length_append,
        show ("indicators:search:".data).length = 18 from by decide]
      omega
    have htake : (CacheKeyIndicators q).take 17 = "indicators:search".data := by
      rw [CacheKeyIndicators, take_append_left (by decide)]
      decide
    rw [importOne, if_neg h1, if_neg h2, if_neg h3, if_pos ⟨hlen, htake⟩]

/-- The import loop either skips an entry or stores it under its own key. -/
theorem importOne_eq_or (c : CacheMap) (k : List Char) (p : CachePayload)
    (now d : Nat) :
    importOne c k p now d = c ∨
      importOne c k p now d = cacheSet c k p (now + d) := by
  cases p
  all_goals (
    rw [importOne]
    by_cases h1 : 4 < k.length ∧ k.take 4 = "ppp:".data
    · rw [if_pos h1]
      first | exact Or.inl rfl | exact Or.inr rfl
    · rw [if_neg h1]
      by_cases h2 : 5 < k.length ∧ k.take 5 = "rate:".data
      · rw [if_pos h2]
        first | exact Or.inl rfl | exact Or.inr rfl
      · rw [if_neg h2]
        by_cases h3 : k = "countries:all".data
        · rw [if_pos h3]
          first | exact Or.inl rfl | exact Or.inr rfl
        · rw [if_neg h3]
          by_cases h4 : 17 < k.length ∧ k.take 17 = "indicators:search".data
          · rw [if_pos h4]
            first | exact Or.inl rfl | exact Or.inr rfl
          · rw [if_neg h4]
            exact Or.inl rfl)

theorem cacheGet_set_self (c : CacheMap) (now : Nat) (k : List Char)
    (p : CachePayload) (e : Nat) (h : now ≤ e) :
    cacheGet (cacheSet c k p e) now k = some p := by
  simp only [cacheGet, cacheSet]
  rw [List.find?_cons_of_pos _ (by simp)]
  simp [h]

theorem cacheGet_set_ne (c : CacheMap) (now : Nat) (k k2 : List Char)
    (p : CachePayload) (e : Nat) (h : ¬ k2 = k) :
    cacheGet (cacheSet c k p e) now k2 = cacheGet c now k2 := by
  simp only [cacheGet, cacheSet]
  rw [List.find?_cons_of_neg _ (by simp; exact fun hh => h hh.symm)]
  rw [find?_filter_ne (fun ent => ent.key) k k2 h c]

/-- Importing entries whose keys all differ from `k` leaves reads of `k`
unchanged. -/
theorem importCache_untouched (now d tg : Nat) (k : List Char) :
    ∀ (entries : List (List Char × CachePayload)) (c : CacheMap),
      (∀ kp ∈ entries, ¬ kp.1 = k) →
      cacheGet (ImportCache c entries now d) tg k = cacheGet c tg k := by
  intro entries
  induction entries with
  | nil => intro c _; rfl
  | cons kp rest ih =>
    intro c h
    obtain ⟨k', p'⟩ := kp
    rw [ImportCache]
    rw [ih _ (fun kp hk => h kp (List.mem_cons_of_mem _ hk))]
    have hne : ¬ k = k' := by
      intro hh
      exact h (k', p') (List.mem_cons_self _ _) hh.symm
    rcases importOne_eq_or c k' p' now d with heq | heq
    · rw [heq]
    · rw [heq, cacheGet_set_ne c tg k' k p' (now + d) hne]

/-- A well-formed entry of an imported file (with unique keys) is readable
from the resulting cache for as long as the importing cache's default TTL
lasts. -/
theorem importCache_get (now d tg : Nat) (hdur : tg ≤ now + d)
    (k : List Char) (p : CachePayload) (hwf : WFKeyPayload k p) :
    ∀ (entries : List (List Char × CachePayload)) (c : CacheMap),
      (k, p) ∈ entries → (entries.map fun kp => kp.1).Nodup →
      cacheGet (ImportCache c entries now d) tg k = some p := by
  intro entries
  induction entries with
  | nil => intro c h _; simp at h
  | cons kp rest ih =>
    intro c hmem hnd
    rw [List.map_cons, List.nodup_cons] at hnd
    rcases List.mem_cons.mp hmem with heq | hrest
    · subst heq
      rw [ImportCache, importOne_wf c k p now d hwf]
      rw [importCache_untouched now d tg k rest _ ?_]
      · exact cacheGet_set_self c tg k p (now + d) hdur
      · intro kp hk hh
        exact hnd.1 (List.mem_map.mpr ⟨kp, hk, hh⟩)
    · obtain ⟨k', p'⟩ := kp
      rw [ImportCache]
      exact ih _ hrest hnd.2

/-- A key that reads successfully (present, unexpired) at export time appears
in the exported file. -/
theorem exportCache_mem (c : CacheMap) (te : Nat) (k : List Char)
    (p : CachePayload) (hget : cacheGet c te k = some p) :
    (k, p) ∈ ExportCache c te := by
  cases hf : List.find? (fun e => e.key = k) c with
  | none => simp [cacheGet, hf] at hget
  | some e =>
    have hmem := List.mem_of_find?_eq_some hf
    have hkey : e.key = k := by simpa using List.find?_some hf
    simp only [cacheGet, hf] at hget
    by_cases hexp : te ≤ e.expiration
    · rw [if_pos hexp] at hget
      have hpay : e.payload = p := Option.some_injective _ hget
      rw [ExportCache]
      refine List.mem_map.mpr ⟨e, ?_, by rw [hkey, hpay]⟩
      exact List.mem_filter.mpr ⟨hmem, by simpa using hexp⟩
    · rw [if_neg hexp] at hget
      exact absurd hget (by simp)

theorem exportCache_keys_nodup (c : CacheMap) (te : Nat)
    (h : (c.map fun e => e.key).Nodup) :
    ((ExportCache c te).map fun kp => kp.1).Nodup := by
  rw [ExportCache, List.map_map]
  have hco : ((fun kp : List Char × CachePayload => kp.1) ∘
      fun e : CacheItem => (e.key, e.payload)) = fun e : CacheItem => e.key := rfl
  rw [hco]
  exact h.sublist ((List.filter_sublist c).map _)

theorem wf_of_get (c : CacheMap) (te : Nat) (k : List Char) (p : CachePayload)
    (hwf : ∀ e ∈ c, WFKeyPayload e.key e.payload)
    (hget : cacheGet c te k = some p) : WFKeyPayload k p := by
  cases hf : List.find? (fun e => e.key = k) c with
  | none => simp [cacheGet, hf] at hget
  | some e =>
    have hmem := List.mem_of_find?_eq_some hf
    have hkey : e.key = k := by simpa using List.find?_some hf
    simp only [cacheGet, hf] at hget
    by_cases hexp : te ≤ e.expiration
    · rw [if_pos hexp] at hget
      have hpay : e.payload = p := Option.some_injective _ hget
      rw [← hkey, ← hpay]
      exact hwf e hmem
    · rw [if_neg hexp] at hget
      exact absurd hget (by simp)

/-- C6: exporting a cache and importing the file into a fresh cache
reproduces the pre-export `get` result for every key that was present and
unexpired at export time. The cache holds keys of the four namespaces the
library writes (`ppp:<country>`, `rate:<from>:<to>`, `countries:all`,
`indicators:search:<query>`) with their namespace's payload type and unique
keys, and the reproducing read happens within the fresh cache's default TTL
(`d`) of the import. -/
theorem cacheRoundTrip_c6 (c : CacheMap) (te ti d tg : Nat)
    (hwf : ∀ e ∈ c, WFKeyPayload e.key e.payload)
    (hnd : (c.map fun e => e.key).Nodup)
    (hdur : tg ≤ ti + d)
    (k : List Char) (p : CachePayload)
    (hget : cacheGet c te k = some p) :
    cacheGet (ImportCache [] (ExportCache c te) ti d) tg k = some p :=
  importCache_get ti d tg hdur k p (wf_of_get c te k p hwf hget)
    (ExportCache c te) [] (exportCache_mem c te k p hget)
    (exportCache_keys_nodup c te hnd)

/-- A two-entry demonstration cache: one PPP observation, one exchange rate. -/
def c6DemoCache : CacheMap :=
  [⟨CacheKeyPPP "TR",
    CachePayload.pppD ⟨"TR", "Turkiye", 2023, 12, "World Bank"⟩, 100⟩,
   ⟨CacheKeyExchangeRate "USD" "TRY",
    CachePayload.rateD ⟨"USD", "TRY", 2⟩, 50⟩]

/-- Witness for C6: export `c6DemoCache` at time 10, import into an empty
cache at time 20 with default TTL 24, read the PPP key at time 30. -/
theorem cacheRoundTrip_c6_witness :
    cacheGet (ImportCache [] (ExportCache c6DemoCache 10) 20 24) 30
      (CacheKeyPPP "TR") =
      some (CachePayload.pppD ⟨"TR", "Turkiye", 2023, 12, "World Bank"⟩) :=
  cacheRoundTrip_c6 c6DemoCache 10 20 24 30
    (by
      intro e he
      rcases List.mem_cons.mp he with rfl | he2
      · exact ⟨"TR", by decide, rfl⟩
      · rcases List.mem_cons.mp he2 with rfl | he3
        · exact ⟨"USD", "TRY", rfl⟩
        · simp at he3)
    (by decide) (by decide) (CacheKeyPPP "TR")
    (CachePayload.pppD ⟨"TR", "Turkiye", 2023, 12, "World Bank"⟩)
    (by decide)
